import Mathlib

/- Shallow embedding of src/documentstore/domain.py.

   Modelling conventions:
   - Python dicts keyed by strings are association lists in insertion order
     (keys unique by construction of the code paths that build them).
   - Raised exceptions are an explicit error type `Err`; functions that can
     raise return `Except Err _` (or `Option _` where only one failure mode
     exists on the modelled path).
   - `utcnow()` is modelled by an explicit clock `now : Nat -> String`
     together with a tick counter: each call of the Python `now()` consumes
     one tick, in program order.
   - Python string comparison is lexicographic on code points; it is modelled
     by `pyStrLt` / `pyStrLe` on the character list.
   - `re.match` against the two timestamp patterns is modelled by structural
     matchers over the character list (the patterns are anchored and contain
     no unbounded repetition; the `$`-before-final-newline quirk of Python
     regexes is not modelled, no claim touches it). -/

namespace DocStore

inductive Err where
  | versionAlreadySet
  | valueError
  | keyError
  | indexError
  | alreadyExists
  | doesNotExist
deriving DecidableEq, Repr

deriving instance DecidableEq for Except

/-- Dict lookup (`d.get(k)` / `d[k]`) on an association list. -/
def lookupA {β : Type} (k : String) : List (String × β) → Option β
  | [] => none
  | (k', v) :: rest => if k' = k then some v else lookupA k rest

/-- Dict assignment `d[k] = v`: replace in place when the key exists,
otherwise append at the end (Python dicts preserve insertion order). -/
def setAssoc {β : Type} (k : String) (v : β) : List (String × β) → List (String × β)
  | [] => [(k, v)]
  | (k', v') :: rest => if k' = k then (k, v) :: rest else (k', v') :: setAssoc k v rest

/-- Dict deletion `del d[k]` for a key known to be present. -/
def eraseAssoc {β : Type} (k : String) : List (String × β) → List (String × β)
  | [] => []
  | (k', v') :: rest => if k' = k then rest else (k', v') :: eraseAssoc k rest

/-- Key sequence of a dict comprehension iterating `l`: first occurrences, in
order (later duplicates only overwrite the value, never move the key). -/
def dedupAux (seen : List String) : List String → List String
  | [] => []
  | k :: rest => if k ∈ seen then dedupAux seen rest else k :: dedupAux (k :: seen) rest

def dedupKeys (l : List String) : List String := dedupAux [] l

/-- Python list subscription `l[i]`: negative indices count from the end,
out-of-range raises IndexError (`none`). -/
def pyGet {α : Type} (l : List α) (i : Int) : Option α :=
  let j : Int := if i < 0 then i + l.length else i
  if 0 ≤ j ∧ j < (l.length : Int) then l[j.toNat]? else none

/-- Python `list.insert(i, x)`: the index is clamped into `[0, len]`
(negative indices count from the end) and never fails. -/
def pyInsert {α : Type} (l : List α) (i : Int) (x : α) : List α :=
  let j : Int := if i < 0 then max (i + l.length) 0 else min i l.length
  l.take j.toNat ++ x :: l.drop j.toNat

/-- Python `s < t` on strings: strict lexicographic order on code points. -/
def pyStrLtL : List Char → List Char → Bool
  | [], [] => false
  | [], _ :: _ => true
  | _ :: _, [] => false
  | a :: as, b :: bs =>
    if a.toNat < b.toNat then true
    else if b.toNat < a.toNat then false
    else pyStrLtL as bs

def pyStrLt (s t : String) : Bool := pyStrLtL s.toList t.toList

/-- Python `s <= t` on strings: the order is total, so `s <= t` iff `not (t < s)`. -/
def pyStrLe (s t : String) : Bool := !(pyStrLt t s)

/-- Python `max(l, key=key)`: `none` on an empty list (ValueError), otherwise
the FIRST element attaining the maximal key (Python replaces the running
maximum only on a strictly greater key). -/
def pyMax {α : Type} (key : α → String) : List α → Option α
  | [] => none
  | x :: xs => some (xs.foldl (fun b e => if pyStrLt (key b) (key e) then e else b) x)

/-- `max(itertools.takewhile(lambda x: key(x) <= T, l), key=key)` — the shape
shared by the version lookup and the per-asset lookup in
`Document.version_at`. -/
def resolveByTime {α : Type} (key : α → String) (T : String) (l : List α) : Option α :=
  pyMax key (l.takeWhile (fun x => pyStrLe (key x) T))

/-- Modelled from the claim's words of C2 (NOT from the source): among all
entries whose timestamp is ≤ T, the one with maximal timestamp, ties broken
toward the entry occurring later in the sequence. -/
def claimResolveByTime {α : Type} (key : α → String) (T : String) (l : List α) : Option α :=
  match l.filter (fun x => pyStrLe (key x) T) with
  | [] => none
  | x :: xs => some (xs.foldl (fun b e => if pyStrLe (key b) (key e) then e else b) x)

/-- Consume exactly `n` ASCII digits (`[0-9]{n}`). -/
def chompDigits : Nat → List Char → Option (List Char)
  | 0, l => some l
  | _ + 1, [] => none
  | n + 1, c :: l => if c.isDigit then chompDigits n l else none

/-- Consume one literal character. -/
def chompChar (c : Char) : List Char → Option (List Char)
  | [] => none
  | c' :: l => if c' = c then some l else none

/-- `Document._timestamp_pattern`:
`^[0-9]{4}-[0-9]{2}-[0-9]{2}(T[0-9]{2}:[0-9]{2}(:[0-9]{2})?Z)?$`. -/
def matchesTimestampPattern (s : String) : Bool :=
  match (((chompDigits 4 s.toList).bind (chompChar '-') |>.bind
      (chompDigits 2) |>.bind (chompChar '-') |>.bind (chompDigits 2)) : Option (List Char)) with
  | none => false
  | some rest =>
    rest.isEmpty ||
      (match (((chompChar 'T' rest).bind (chompDigits 2) |>.bind
          (chompChar ':') |>.bind (chompDigits 2)) : Option (List Char)) with
       | none => false
       | some rest2 =>
         decide (rest2 = ['Z']) ||
           decide (((chompChar ':' rest2).bind (chompDigits 2)) = some ['Z']))

/-- The bare-date pattern `^\d{4}-\d{2}-\d{2}$` used for date widening. -/
def matchesBareDate (s : String) : Bool :=
  (((chompDigits 4 s.toList).bind (chompChar '-') |>.bind
      (chompDigits 2) |>.bind (chompChar '-') |>.bind (chompDigits 2)) : Option (List Char)) = some []

/-- One version of a document: data URI, per-asset timelines of
`(timestamp, uri)` entries, and the version's own timestamp. -/
structure Version where
  data : String
  assets : List (String × List (String × String))
  timestamp : String
deriving DecidableEq, Repr

structure Manifest where
  id : String
  versions : List Version
deriving DecidableEq, Repr

/-- A version as returned by `Document.version` / `Document.version_at`:
each asset's timeline collapsed to a single URI. -/
structure RVersion where
  data : String
  assets : List (String × String)
  timestamp : String
deriving DecidableEq, Repr

/-- The duck-typed `assets` argument of `DocumentManifest.add_version`: either
a bare list of asset ids or a mapping of asset id to URI. -/
inductive AssetsArg where
  | ids (l : List String)
  | bindings (l : List (String × String))

def AssetsArg.keys : AssetsArg → List String
  | .ids l => l
  | .bindings l => l.map (·.1)

namespace DocumentManifest

def new (id : String) : Manifest := ⟨id, []⟩

/-- `DocumentManifest._new_version`: every discovered asset starts with an
empty timeline. -/
def new_version_raw (dataUri : String) (assets : AssetsArg) (ts : String) : Version :=
  ⟨dataUri, (dedupKeys assets.keys).map (fun k => (k, [])), ts⟩

/-- Append `e` to the timeline of key `k`; `none` models the KeyError when
the key is absent. -/
def appendEntry? (k : String) (e : String × String) :
    List (String × List (String × String)) → Option (List (String × List (String × String)))
  | [] => none
  | (k', tl) :: rest =>
    if k' = k then some ((k', tl ++ [e]) :: rest)
    else (appendEntry? k e rest).map (fun r => (k', tl) :: r)

/-- `DocumentManifest._new_asset_version`. -/
def new_asset_version_raw (v : Version) (assetId assetUri : String) (ts : String) : Option Version :=
  (appendEntry? assetId (ts, assetUri) v.assets).map (fun a => { v with assets := a })

/-- The seeding loop of `add_version`: for each binding with a non-empty URI
(in dict order) append one timeline entry, consuming one clock tick per
append. -/
def seedAssets (v : Version) (bs : List (String × String)) (now : Nat → String) (t : Nat) :
    Option Version :=
  match bs with
  | [] => some v
  | (k, u) :: rest =>
    if u = "" then seedAssets v rest now t
    else
      match new_asset_version_raw v k u (now t) with
      | none => none
      | some v' => seedAssets v' rest now (t + 1)

/-- `DocumentManifest.add_version`. When `assets` is a bare list, subscripting
it by a string key raises TypeError on the first loop iteration and the loop
breaks, so no timeline is seeded. -/
def add_version (m : Manifest) (dataUri : String) (assets : AssetsArg)
    (now : Nat → String) (t : Nat) : Option Manifest :=
  let v0 := new_version_raw dataUri assets (now t)
  let v? := match assets with
    | .ids _ => some v0
    | .bindings bs => seedAssets v0 bs now (t + 1)
  v?.map (fun v => { m with versions := m.versions ++ [v] })

/-- `DocumentManifest.add_asset_version`: `versions[-1]` raises IndexError on
an empty manifest; the append raises KeyError on an unknown asset id. -/
def add_asset_version (m : Manifest) (assetId assetUri : String)
    (now : Nat → String) (t : Nat) : Except Err Manifest :=
  match m.versions.getLast? with
  | none => .error .indexError
  | some v =>
    match new_asset_version_raw v assetId assetUri (now t) with
    | none => .error .keyError
    | some v' => .ok { m with versions := m.versions.dropLast ++ [v'] }

end DocumentManifest

namespace Document

/-- The `_latest` collapse inside `Document.version`: each asset timeline is
replaced by its last URI, or `""` when empty. -/
def resolveVersion (v : Version) : RVersion :=
  ⟨v.data, v.assets.map (fun p => (p.1, ((p.2.getLast?).map Prod.snd).getD "")), v.timestamp⟩

/-- `Document.version(index)`. -/
def version (m : Manifest) (index : Int) : Except Err RVersion :=
  match pyGet m.versions index with
  | some v => .ok (resolveVersion v)
  | none => .error .valueError

/-- The `_at_time` helper of `Document.version_at`. -/
def atTime (ts : String) (uris : List (String × String)) : String :=
  match resolveByTime Prod.fst ts uris with
  | none => ""
  | some e => e.2

/-- `Document.version_at(timestamp)`. -/
def version_at (m : Manifest) (timestamp : String) : Except Err RVersion :=
  if matchesTimestampPattern timestamp then
    let ts := if matchesBareDate timestamp then timestamp ++ "T23:59:59.999999Z" else timestamp
    match resolveByTime Version.timestamp ts m.versions with
    | none => .error .valueError
    | some v => .ok ⟨v.data, v.assets.map (fun p => (p.1, atTime ts p.2)), v.timestamp⟩
  else .error .valueError

/-- `Document._link_assets`: map each discovered asset key to the URI it
resolves to in the latest version, or `""`. -/
def link_assets (m : Manifest) (tolink : List String) : List (String × String) :=
  let latestAssets := match version m (-1) with
    | .ok v => v.assets
    | .error _ => []
  (dedupKeys tolink).map (fun k => (k, (lookupA k latestAssets).getD ""))

/-- `Document.new_version`: `discoveredKeys` is the list of asset hrefs
returned by the external fetcher for `dataUrl`. -/
def new_version (m : Manifest) (dataUrl : String) (discoveredKeys : List String)
    (now : Nat → String) (t : Nat) : Except Err Manifest :=
  let latestData := match version m (-1) with
    | .ok v => v.data
    | .error _ => ""
  if latestData = dataUrl then .error .versionAlreadySet
  else
    match DocumentManifest.add_version m dataUrl (.bindings (link_assets m discoveredKeys)) now t with
    | some m' => .ok m'
    | none => .error .keyError

/-- `Document.new_asset_version`: the idempotency guard compares against the
latest resolved binding (a missing key yields Python `None`, never equal to a
string URL); only KeyError is converted to ValueError, IndexError escapes. -/
def new_asset_version (m : Manifest) (assetId dataUrl : String)
    (now : Nat → String) (t : Nat) : Except Err Manifest :=
  let latestAssets := match version m (-1) with
    | .ok v => v.assets
    | .error _ => []
  if lookupA assetId latestAssets = some dataUrl then .error .versionAlreadySet
  else
    match DocumentManifest.add_asset_version m assetId dataUrl now t with
    | .ok m' => .ok m'
    | .error .keyError => .error .valueError
    | .error e => .error e

/-- The aggregate's manifest swap: `self.manifest = ...` happens only when no
exception was raised, so on error the document keeps its previous manifest. -/
def apply (m : Manifest) (r : Except Err Manifest) : Manifest :=
  match r with
  | .ok m' => m'
  | .error _ => m

end Document

/-- `BundleManifest` / `DocumentsBundle` / `Journal` state. Components are
stored at the top level of the Python dict next to the fixed keys; they are
modelled as a separate field (no caller uses a fixed key as component name). -/
structure Bundle (μ : Type) where
  id : String
  created : String
  updated : String
  items : List String
  metadata : List (String × List (String × μ))
  components : List (String × String)
deriving DecidableEq, Repr

namespace BundleManifest

def new (μ : Type) (bundleId : String) (now : String) : Bundle μ :=
  ⟨bundleId, now, now, [], [], []⟩

/-- `BundleManifest.set_metadata`: `setdefault(name, []).append((now, value))`
then refresh `updated` with the same `now()` value. -/
def set_metadata {μ : Type} (b : Bundle μ) (name : String) (value : μ) (now : String) : Bundle μ :=
  let timeline := (lookupA name b.metadata).getD []
  { b with metadata := setAssoc name (timeline ++ [(now, value)]) b.metadata, updated := now }

def get_metadata {μ : Type} (b : Bundle μ) (name : String) (default : μ) : μ :=
  match ((lookupA name b.metadata).getD []).getLast? with
  | some e => e.2
  | none => default

def add_item {μ : Type} (b : Bundle μ) (item : String) (now : String) : Except Err (Bundle μ) :=
  if item ∈ b.items then .error .alreadyExists
  else .ok { b with items := b.items ++ [item], updated := now }

def insert_item {μ : Type} (b : Bundle μ) (index : Int) (item : String) (now : String) :
    Except Err (Bundle μ) :=
  if item ∈ b.items then .error .alreadyExists
  else .ok { b with items := pyInsert b.items index item, updated := now }

def remove_item {μ : Type} (b : Bundle μ) (item : String) (now : String) :
    Except Err (Bundle μ) :=
  if item ∈ b.items then .ok { b with items := b.items.erase item, updated := now }
  else .error .doesNotExist

def set_component {μ : Type} (b : Bundle μ) (name value : String) (now : String) : Bundle μ :=
  { b with components := setAssoc name value b.components, updated := now }

def get_component {μ : Type} (b : Bundle μ) (name : String) (default : String) : String :=
  (lookupA name b.components).getD default

/-- `BundleManifest.remove_component`: deletes the key (DoesNotExist when
absent). Note: it takes no clock and does not touch `updated`. -/
def remove_component {μ : Type} (b : Bundle μ) (name : String) : Except Err (Bundle μ) :=
  match lookupA name b.components with
  | some _ => .ok { b with components := eraseAssoc name b.components }
  | none => .error .doesNotExist

end BundleManifest

/-- The `SUBJECT_AREAS` tuple from domain.py, verbatim. -/
def SUBJECT_AREAS : List String :=
  ["AGRICULTURAL SCIENCES",
   "APPLIED SOCIAL SCIENCES",
   "BIOLOGICAL SCIENCES",
   "ENGINEERING",
   "EXACT AND EARTH SCIENCES",
   "HEALTH SCIENCES",
   "HUMAN SCIENCES",
   "LINGUISTIC, LITERATURE AND ARTS"]

namespace Journal

/-- The `Journal.subject_areas` setter (after the `tuple(value)` coercion):
reject when any element is outside `SUBJECT_AREAS`, else delegate to
`set_metadata`. -/
def set_subject_areas (b : Bundle (List String)) (value : List String) (now : String) :
    Except Err (Bundle (List String)) :=
  let invalid := value.filter (fun item => !(SUBJECT_AREAS.contains item))
  if invalid.isEmpty then .ok (BundleManifest.set_metadata b "subject_areas" value now)
  else .error .valueError

end Journal

/-- Timeline `t'` extends timeline `t`: all entries of `t` are present,
unmodified, in the same order, possibly followed by appended entries. -/
def TimelineLe (t t' : List (String × String)) : Prop := ∃ s, t' = t ++ s

/-- Version `v'` extends version `v`: same data URI and timestamp, same asset
keys in the same order, and each asset timeline of `v` is an initial run of
the corresponding timeline of `v'`. -/
def VersionExt (v v' : Version) : Prop :=
  v'.data = v.data ∧ v'.timestamp = v.timestamp ∧
    List.Forall₂ (fun a b => a.1 = b.1 ∧ TimelineLe a.2 b.2) v.assets v'.assets

/-- Manifest `m'` extends manifest `m` append-only: same id, at least as many
versions, and each version of `m` is extended (in place, in order) by the
corresponding version of `m'`. -/
def ManifestExt (m m' : Manifest) : Prop :=
  m'.id = m.id ∧ m.versions.length ≤ m'.versions.length ∧
    List.Forall₂ VersionExt m.versions (m'.versions.take m.versions.length)

/- Concrete inputs used by the closed theorems below. -/

/-- A document with one version whose single asset `fig1` is unbound. -/
def exDoc1 : Manifest :=
  ⟨"doc", [⟨"http://x/v1.xml", [("fig1", [])], "2020-05-01T10:00:00.000000Z"⟩]⟩

/-- A document with one version whose asset `fig1` is bound to a URI. -/
def exDoc2 : Manifest :=
  ⟨"doc", [⟨"http://x/v1.xml", [("fig1", [("t1", "http://x/fig1.png")])], "t0"⟩]⟩

/-- A constant clock for concrete runs (the claims hold for every clock). -/
def exClock : Nat → String := fun _ => "tz"

/-- A bundle with one item and one component. -/
def exBundle : Bundle String :=
  ⟨"b", "t0", "t0", ["i1"], [], [("aop", "x")]⟩

/-- A freshly created journal manifest. -/
def exJournal : Bundle (List String) :=
  ⟨"j", "t0", "t0", [], [], []⟩

/- Order theory of the modelled Python string comparison. -/

theorem char_toNat_inj {a b : Char} (h : a.toNat = b.toNat) : a = b := by
  apply Char.ext
  unfold Char.toNat at h
  exact UInt32.toNat.inj h

theorem pyStrLtL_irrefl : ∀ l : List Char, pyStrLtL l l = false
  | [] => rfl
  | a :: as => by simp [pyStrLtL, pyStrLtL_irrefl as]

theorem pyStrLtL_trans : ∀ (a b c : List Char),
    pyStrLtL a b = true → pyStrLtL b c = true → pyStrLtL a c = true
  | [], _ :: _, _ :: _, _, _ => rfl
  | [], [], _, h1, _ => by simp [pyStrLtL] at h1
  | [], _ :: _, [], _, h2 => by simp [pyStrLtL] at h2
  | _ :: _, [], _, h1, _ => by simp [pyStrLtL] at h1
  | _ :: _, _ :: _, [], _, h2 => by simp [pyStrLtL] at h2
  | x :: xs, y :: ys, z :: zs, h1, h2 => by
    rcases Nat.lt_trichotomy x.toNat y.toNat with hxy | hxy | hxy
    · rcases Nat.lt_trichotomy y.toNat z.toNat with hyz | hyz | hyz
      · simp [pyStrLtL, Nat.lt_trans hxy hyz]
      · simp [pyStrLtL, hyz ▸ hxy]
      · exfalso
        have h1' : ¬ y.toNat < z.toNat := by omega
        simp [pyStrLtL, h1', hyz] at h2
    · have hx1 : ¬ x.toNat < y.toNat := by omega
      have hx2 : ¬ y.toNat < x.toNat := by omega
      simp only [pyStrLtL, hx1, if_false, hx2] at h1
      rcases Nat.lt_trichotomy y.toNat z.toNat with hyz | hyz | hyz
      · simp [pyStrLtL, hxy ▸ hyz]
      · have hy1 : ¬ y.toNat < z.toNat := by omega
        have hy2 : ¬ z.toNat < y.toNat := by omega
        simp only [pyStrLtL, hy1, if_false, hy2] at h2
        have hz1 : ¬ x.toNat < z.toNat := by omega
        have hz2 : ¬ z.toNat < x.toNat := by omega
        simp only [pyStrLtL, hz1, if_false, hz2]
        exact pyStrLtL_trans xs ys zs h1 h2
      · exfalso
        have h2' : ¬ y.toNat < z.toNat := by omega
        simp [pyStrLtL, h2', hyz] at h2
    · exfalso
      have h1' : ¬ x.toNat < y.toNat := by omega
      simp [pyStrLtL, h1', hxy] at h1

theorem pyStrLtL_total : ∀ (a b : List Char), pyStrLtL a b = true ∨ a = b ∨ pyStrLtL b a = true
  | [], [] => .inr (.inl rfl)
  | [], _ :: _ => .inl rfl
  | _ :: _, [] => .inr (.inr rfl)
  | x :: xs, y :: ys => by
    rcases Nat.lt_trichotomy x.toNat y.toNat with h | h | h
    · exact .inl (by simp [pyStrLtL, h])
    · have h1 : ¬ x.toNat < y.toNat := by omega
      have h2 : ¬ y.toNat < x.toNat := by omega
      rcases pyStrLtL_total xs ys with ht | ht | ht
      · exact .inl (by simp [pyStrLtL, h1, h2, ht])
      · exact .inr (.inl (by rw [char_toNat_inj h, ht]))
      · exact .inr (.inr (by simp [pyStrLtL, h1, h2, ht]))
    · exact .inr (.inr (by simp [pyStrLtL, h]))

theorem pyStrLt_irrefl (s : String) : pyStrLt s s = false := pyStrLtL_irrefl _

theorem pyStrLt_trans {a b c : String} (h1 : pyStrLt a b = true) (h2 : pyStrLt b c = true) :
    pyStrLt a c = true := pyStrLtL_trans _ _ _ h1 h2

theorem pyStrLt_asymm {a b : String} (h : pyStrLt a b = true) : pyStrLt b a = false := by
  by_contra hc
  have hba : pyStrLt b a = true := by
    cases hv : pyStrLt b a
    · exact absurd hv hc
    · rfl
  have := pyStrLt_trans h hba
  rw [pyStrLt_irrefl] at this
  cases this

theorem pyStrLe_refl (s : String) : pyStrLe s s = true := by
  simp [pyStrLe, pyStrLt_irrefl]

theorem pyStrLe_of_lt {a b : String} (h : pyStrLt a b = true) : pyStrLe a b = true := by
  simp [pyStrLe, pyStrLt_asymm h]

theorem pyStrLt_of_lt_of_le {a b c : String} (h1 : pyStrLt a b = true)
    (h2 : pyStrLe b c = true) : pyStrLt a c = true := by
  have h2' : pyStrLt c b = false := by
    simpa [pyStrLe] using h2
  rcases pyStrLtL_total b.toList c.toList with h | h | h
  · exact pyStrLtL_trans _ _ _ h1 h
  · unfold pyStrLt at h1 ⊢
    rw [← h]
    exact h1
  · exact absurd ((show pyStrLt c b = pyStrLtL c.toList b.toList from rfl).symm.trans h2'
      |>.symm.trans h) (by simp)

theorem pyStrLt_of_le_of_lt {a b c : String} (h1 : pyStrLe a b = true)
    (h2 : pyStrLt b c = true) : pyStrLt a c = true := by
  have h1' : pyStrLt b a = false := by
    simpa [pyStrLe] using h1
  rcases pyStrLtL_total a.toList b.toList with h | h | h
  · exact pyStrLtL_trans _ _ _ h h2
  · unfold pyStrLt at h2 ⊢
    rw [h]
    exact h2
  · exact absurd ((show pyStrLt b a = pyStrLtL b.toList a.toList from rfl).symm.trans h1'
      |>.symm.trans h) (by simp)

theorem pyStrLe_trans {a b c : String} (h1 : pyStrLe a b = true) (h2 : pyStrLe b c = true) :
    pyStrLe a c = true := by
  have h2' : pyStrLt c b = false := by simpa [pyStrLe] using h2
  simp only [pyStrLe, Bool.not_eq_true']
  cases hv : pyStrLt c a
  · rfl
  · have := pyStrLt_of_lt_of_le hv h1
    rw [this] at h2'
    cases h2'

/- Helper lemmas about the dict / list primitives. -/

theorem lookupA_map {β γ : Type} (k : String) (g : β → γ) :
    ∀ l : List (String × β),
      lookupA k (l.map (fun p => (p.1, g p.2))) = (lookupA k l).map g
  | [] => rfl
  | (k', v) :: rest => by
    by_cases h : k' = k <;> simp [lookupA, h, lookupA_map k g rest]

theorem lookupA_mapKeys {β : Type} (k : String) (f : String → β) :
    ∀ l : List String,
      lookupA k (l.map (fun a => (a, f a))) = if k ∈ l then some (f k) else none
  | [] => by simp [lookupA]
  | a :: rest => by
    by_cases h : a = k
    · subst h
      simp [lookupA]
    · simp [lookupA, h, lookupA_mapKeys k f rest, Ne.symm h]

theorem lookupA_isSome_iff {β : Type} (k : String) :
    ∀ l : List (String × β), (lookupA k l).isSome = true ↔ k ∈ l.map Prod.fst
  | [] => by simp [lookupA]
  | (k', v) :: rest => by
    by_cases h : k' = k
    · subst h
      simp [lookupA]
    · simp [lookupA, h, lookupA_isSome_iff k rest, Ne.symm h]

theorem pyGet_neg_one {α : Type} (l : List α) : pyGet l (-1) = l.getLast? := by
  rcases List.eq_nil_or_concat l with rfl | ⟨l', b, rfl⟩
  · rfl
  · simp only [List.concat_eq_append, pyGet]
    have hlen : (l' ++ [b]).length = l'.length + 1 := by simp
    rw [if_pos (show (-1 : Int) < 0 by norm_num)]
    rw [if_pos (by rw [hlen]; constructor <;> omega)]
    have hj : ((-1 : Int) + (((l' ++ [b]).length : Nat) : Int)).toNat = l'.length := by
      rw [hlen]; omega
    rw [hj, List.getElem?_concat_length, List.getLast?_concat]

theorem mem_dedupAux (a : String) : ∀ (seen l : List String),
    a ∈ dedupAux seen l ↔ a ∈ l ∧ a ∉ seen
  | seen, [] => by simp [dedupAux]
  | seen, k :: rest => by
    by_cases h : k ∈ seen
    · rw [dedupAux, if_pos h, mem_dedupAux a seen rest]
      constructor
      · rintro ⟨h1, h2⟩
        exact ⟨.tail _ h1, h2⟩
      · rintro ⟨h1, h2⟩
        rcases List.mem_cons.mp h1 with rfl | h1
        · exact absurd h h2
        · exact ⟨h1, h2⟩
    · rw [dedupAux, if_neg h]
      by_cases hak : a = k
      · subst hak
        simp [h]
      · rw [List.mem_cons, mem_dedupAux a (k :: seen) rest]
        simp [hak, List.mem_cons]

theorem mem_dedupKeys (a : String) (l : List String) : a ∈ dedupKeys l ↔ a ∈ l := by
  rw [dedupKeys, mem_dedupAux]
  simp

theorem nodup_dedupAux : ∀ (seen l : List String), (dedupAux seen l).Nodup
  | seen, [] => List.nodup_nil
  | seen, k :: rest => by
    by_cases h : k ∈ seen
    · rw [dedupAux, if_pos h]
      exact nodup_dedupAux seen rest
    · rw [dedupAux, if_neg h]
      refine List.nodup_cons.mpr ⟨?_, nodup_dedupAux (k :: seen) rest⟩
      rw [mem_dedupAux]
      rintro ⟨-, h2⟩
      exact h2 (List.mem_cons_self _ _)

theorem nodup_dedupKeys (l : List String) : (dedupKeys l).Nodup := nodup_dedupAux [] l

theorem dedupAux_eq_self : ∀ (seen l : List String), l.Nodup → (∀ a ∈ l, a ∉ seen) →
    dedupAux seen l = l
  | seen, [], _, _ => rfl
  | seen, k :: rest, hnd, hdis => by
    rw [dedupAux, if_neg (hdis k (List.mem_cons_self _ _))]
    congr 1
    refine dedupAux_eq_self (k :: seen) rest (List.nodup_cons.mp hnd).2 ?_
    intro a ha
    rw [List.mem_cons]
    rintro (rfl | hs)
    · exact (List.nodup_cons.mp hnd).1 ha
    · exact hdis a (.tail _ ha) hs

theorem dedupKeys_eq_self {l : List String} (h : l.Nodup) : dedupKeys l = l :=
  dedupAux_eq_self [] l h (by simp)

theorem appendEntry?_eq_none {k : String} {e : String × String} :
    ∀ l, DocumentManifest.appendEntry? k e l = none ↔ lookupA k l = none
  | [] => by simp [DocumentManifest.appendEntry?, lookupA]
  | (k', tl) :: rest => by
    by_cases h : k' = k <;>
      simp [DocumentManifest.appendEntry?, lookupA, h, appendEntry?_eq_none rest]

theorem appendEntry?_spec {k : String} {e : String × String} :
    ∀ {l l'}, DocumentManifest.appendEntry? k e l = some l' →
      l'.map Prod.fst = l.map Prod.fst ∧
      lookupA k l' = (lookupA k l).map (fun tl => tl ++ [e]) ∧
      (∀ k₀, k₀ ≠ k → lookupA k₀ l' = lookupA k₀ l)
  | [], l', h => by simp [DocumentManifest.appendEntry?] at h
  | (k', tl) :: rest, l', h => by
    by_cases hk : k' = k
    · rw [DocumentManifest.appendEntry?, if_pos hk] at h
      obtain rfl := (Option.some.inj h).symm
      subst hk
      refine ⟨by simp, ?_, ?_⟩
      · simp [lookupA]
      · intro k₀ hk₀
        have hne : ¬ k' = k₀ := fun hcon => hk₀ hcon.symm
        simp [lookupA, hne]
    · rw [DocumentManifest.appendEntry?, if_neg hk] at h
      cases hrest : DocumentManifest.appendEntry? k e rest with
      | none => rw [hrest] at h; cases h
      | some r =>
        rw [hrest] at h
        obtain rfl := (Option.some.inj h).symm
        obtain ⟨ih1, ih2, ih3⟩ := appendEntry?_spec hrest
        refine ⟨by simp [ih1], ?_, ?_⟩
        · simp [lookupA, hk, ih2]
        · intro k₀ hk₀
          by_cases hkk : k' = k₀ <;> simp [lookupA, hkk, ih3 k₀ hk₀]

theorem appendEntry?_forall2 {k : String} {e : String × String} :
    ∀ {l l'}, DocumentManifest.appendEntry? k e l = some l' →
      List.Forall₂ (fun a b => a.1 = b.1 ∧ TimelineLe a.2 b.2) l l'
  | [], l', h => by simp [DocumentManifest.appendEntry?] at h
  | (k', tl) :: rest, l', h => by
    by_cases hk : k' = k
    · rw [DocumentManifest.appendEntry?, if_pos hk] at h
      obtain rfl := (Option.some.inj h).symm
      exact List.Forall₂.cons ⟨rfl, [e], rfl⟩
        (List.forall₂_same.mpr fun x _ => ⟨rfl, [], (List.append_nil _).symm⟩)
    · rw [DocumentManifest.appendEntry?, if_neg hk] at h
      cases hrest : DocumentManifest.appendEntry? k e rest with
      | none => rw [hrest] at h; cases h
      | some r =>
        rw [hrest] at h
        obtain rfl := (Option.some.inj h).symm
        exact List.Forall₂.cons ⟨rfl, [], (List.append_nil _).symm⟩ (appendEntry?_forall2 hrest)

theorem seedAssets_some : ∀ (bs : List (String × String)) (v : Version)
    (now : Nat → String) (t : Nat),
    (∀ p ∈ bs, (lookupA p.1 v.assets).isSome = true) →
    ∃ v', DocumentManifest.seedAssets v bs now t = some v'
  | [], v, now, t, _ => ⟨v, rfl⟩
  | (k, u) :: rest, v, now, t, h => by
    rw [DocumentManifest.seedAssets]
    by_cases hu : u = ""
    · rw [if_pos hu]
      exact seedAssets_some rest v now t fun p hp => h p (.tail _ hp)
    · rw [if_neg hu]
      have hk : (lookupA k v.assets).isSome = true := h (k, u) (List.mem_cons_self _ _)
      have hne : DocumentManifest.appendEntry? k (now t, u) v.assets ≠ none := by
        rw [Ne, appendEntry?_eq_none]
        intro hcon
        rw [hcon] at hk
        cases hk
      cases ha : DocumentManifest.appendEntry? k (now t, u) v.assets with
      | none => exact absurd ha hne
      | some a =>
        rw [DocumentManifest.new_asset_version_raw, ha, Option.map_some']
        apply seedAssets_some rest _ now (t + 1)
        intro p hp
        have hkeys := (appendEntry?_spec ha).1
        rw [show ({ v with assets := a } : Version).assets = a from rfl,
          lookupA_isSome_iff, hkeys, ← lookupA_isSome_iff]
        exact h p (.tail _ hp)

theorem seedAssets_frame : ∀ (bs : List (String × String)) (v : Version)
    (now : Nat → String) (t : Nat) {v' : Version},
    DocumentManifest.seedAssets v bs now t = some v' →
    v'.data = v.data ∧ v'.timestamp = v.timestamp ∧
      v'.assets.map Prod.fst = v.assets.map Prod.fst
  | [], v, now, t, v', h => by
    obtain rfl := (Option.some.inj h).symm
    exact ⟨rfl, rfl, rfl⟩
  | (k, u) :: rest, v, now, t, v', h => by
    rw [DocumentManifest.seedAssets] at h
    by_cases hu : u = ""
    · rw [if_pos hu] at h
      exact seedAssets_frame rest v now t h
    · rw [if_neg hu, DocumentManifest.new_asset_version_raw] at h
      cases ha : DocumentManifest.appendEntry? k (now t, u) v.assets with
      | none => rw [ha] at h; cases h
      | some a =>
        rw [ha, Option.map_some'] at h
        obtain ⟨ih1, ih2, ih3⟩ := seedAssets_frame rest _ now (t + 1) h
        exact ⟨ih1, ih2, ih3.trans (appendEntry?_spec ha).1⟩

theorem seedAssets_not_mem : ∀ (bs : List (String × String)) (v : Version)
    (now : Nat → String) (t : Nat) {v' : Version} (a : String),
    a ∉ bs.map Prod.fst →
    DocumentManifest.seedAssets v bs now t = some v' →
    lookupA a v'.assets = lookupA a v.assets
  | [], v, now, t, v', a, _, h => by
    obtain rfl := (Option.some.inj h).symm
    rfl
  | (k, u) :: rest, v, now, t, v', a, hmem, h => by
    rw [List.map_cons, List.mem_cons, not_or] at hmem
    obtain ⟨hak, harest⟩ := hmem
    rw [DocumentManifest.seedAssets] at h
    by_cases hu : u = ""
    · rw [if_pos hu] at h
      exact seedAssets_not_mem rest v now t a harest h
    · rw [if_neg hu, DocumentManifest.new_asset_version_raw] at h
      cases ha : DocumentManifest.appendEntry? k (now t, u) v.assets with
      | none => rw [ha] at h; cases h
      | some r =>
        rw [ha, Option.map_some'] at h
        rw [seedAssets_not_mem rest _ now (t + 1) a harest h]
        exact (appendEntry?_spec ha).2.2 a hak

theorem seedAssets_lookup : ∀ (bs : List (String × String)) (v : Version)
    (now : Nat → String) (t : Nat) {v' : Version} (a u : String),
    (bs.map Prod.fst).Nodup → (a, u) ∈ bs →
    lookupA a v.assets = some [] →
    DocumentManifest.seedAssets v bs now t = some v' →
    ∃ ts, lookupA a v'.assets = some (if u = "" then [] else [(ts, u)])
  | [], v, now, t, v', a, u, _, hmem, _, _ => by cases hmem
  | (k, w) :: rest, v, now, t, v', a, u, hnd, hmem, hva, h => by
    rw [List.map_cons] at hnd
    have hknotin : k ∉ rest.map Prod.fst := (List.nodup_cons.mp hnd).1
    rcases List.mem_cons.mp hmem with heq | htail
    · injection heq with h1 h2
      subst h1
      subst h2
      rw [DocumentManifest.seedAssets] at h
      by_cases hu : u = ""
      · rw [if_pos hu] at h
        refine ⟨now t, ?_⟩
        rw [if_pos hu, seedAssets_not_mem rest v now t a hknotin h]
        exact hva
      · rw [if_neg hu, DocumentManifest.new_asset_version_raw] at h
        cases ha : DocumentManifest.appendEntry? a (now t, u) v.assets with
        | none => rw [ha] at h; cases h
        | some r =>
          rw [ha, Option.map_some'] at h
          refine ⟨now t, ?_⟩
          rw [if_neg hu, seedAssets_not_mem rest _ now (t + 1) a hknotin h]
          have := (appendEntry?_spec ha).2.1
          rw [hva] at this
          simpa using this
    · have hak : a ≠ k := by
        intro hcon
        subst hcon
        exact hknotin (List.mem_map.mpr ⟨(a, u), htail, rfl⟩)
      rw [DocumentManifest.seedAssets] at h
      by_cases hw : w = ""
      · rw [if_pos hw] at h
        exact seedAssets_lookup rest v now t a u (List.nodup_cons.mp hnd).2 htail hva h
      · rw [if_neg hw, DocumentManifest.new_asset_version_raw] at h
        cases ha : DocumentManifest.appendEntry? k (now t, w) v.assets with
        | none => rw [ha] at h; cases h
        | some r =>
          rw [ha, Option.map_some'] at h
          refine seedAssets_lookup rest _ now (t + 1) a u (List.nodup_cons.mp hnd).2 htail ?_ h
          rw [show ({ v with assets := r } : Version).assets = r from rfl,
            (appendEntry?_spec ha).2.2 a hak]
          exact hva

theorem version_neg_one_ok {m : Manifest} {rv : RVersion}
    (h : Document.version m (-1) = .ok rv) :
    ∃ V, m.versions.getLast? = some V ∧ rv = Document.resolveVersion V := by
  unfold Document.version at h
  rw [pyGet_neg_one] at h
  cases hv : m.versions.getLast? with
  | none => rw [hv] at h; cases h
  | some V =>
    rw [hv] at h
    exact ⟨V, rfl, (Except.ok.inj h).symm⟩

theorem lookupA_resolveVersion (k : String) (v : Version) :
    lookupA k (Document.resolveVersion v).assets =
      (lookupA k v.assets).map (fun tl => ((tl.getLast?).map Prod.snd).getD "") := by
  show lookupA k (v.assets.map (fun p => (p.1, ((p.2.getLast?).map Prod.snd).getD ""))) =
    (lookupA k v.assets).map (fun tl => ((tl.getLast?).map Prod.snd).getD "")
  exact lookupA_map k (fun tl => ((tl.getLast?).map Prod.snd).getD "") v.assets

theorem forall2_append {α β : Type} {R : α → β → Prop} :
    ∀ {l1 u1 : List α} {l2 u2 : List β}, List.Forall₂ R l1 l2 → List.Forall₂ R u1 u2 →
      List.Forall₂ R (l1 ++ u1) (l2 ++ u2)
  | [], u1, [], u2, _, h2 => h2
  | a :: l1, u1, b :: l2, u2, h1, h2 => by
    rcases h1 with _ | ⟨hab, h1⟩
    exact List.Forall₂.cons hab (forall2_append h1 h2)

theorem mem_takeWhile_pred {α : Type} (p : α → Bool) :
    ∀ (l : List α) (x : α), x ∈ l.takeWhile p → p x = true
  | [], x, h => by simp [List.takeWhile] at h
  | a :: l, x, h => by
    cases hp : p a
    · simp [List.takeWhile_cons, hp] at h
    · simp only [List.takeWhile_cons, hp] at h
      rcases List.mem_cons.mp h with rfl | h
      · exact hp
      · exact mem_takeWhile_pred p l x h

/-- The running maximum of Python `max(key=...)`: the result is in the list,
every element's key is ≤ its key, and every element strictly before it has a
strictly smaller key (Python keeps the first maximal element). -/
theorem pyMax_foldl_spec {α : Type} (key : α → String) :
    ∀ (xs : List α) (x : α),
      ∃ l1 l2,
        x :: xs = l1 ++ (xs.foldl (fun b e => if pyStrLt (key b) (key e) then e else b) x) :: l2 ∧
        (∀ y ∈ l1,
          pyStrLt (key y)
            (key (xs.foldl (fun b e => if pyStrLt (key b) (key e) then e else b) x)) = true) ∧
        (∀ y ∈ x :: xs,
          pyStrLe (key y)
            (key (xs.foldl (fun b e => if pyStrLt (key b) (key e) then e else b) x)) = true)
  | [], x => by
    refine ⟨[], [], rfl, by simp, ?_⟩
    intro y hy
    rcases List.mem_singleton.mp hy with rfl
    exact pyStrLe_refl _
  | e :: xs, x => by
    simp only [List.foldl_cons]
    by_cases h : pyStrLt (key x) (key e) = true
    · rw [if_pos h]
      obtain ⟨l1, l2, hdec, hstrict, hmax⟩ := pyMax_foldl_spec key xs e
      have her : pyStrLe (key e)
          (key (xs.foldl (fun b e => if pyStrLt (key b) (key e) then e else b) e)) = true :=
        hmax e (List.mem_cons_self _ _)
      refine ⟨x :: l1, l2, ?_, ?_, ?_⟩
      · rw [List.cons_append, ← hdec]
      · intro y hy
        rcases List.mem_cons.mp hy with rfl | hy
        · exact pyStrLt_of_lt_of_le h her
        · exact hstrict y hy
      · intro y hy
        rcases List.mem_cons.mp hy with rfl | hy
        · exact pyStrLe_of_lt (pyStrLt_of_lt_of_le h her)
        · exact hmax y hy
    · rw [if_neg h]
      have hex : pyStrLe (key e) (key x) = true := by
        simp only [pyStrLe, Bool.not_eq_true']
        exact Bool.not_eq_true _ ▸ (Bool.of_not_eq_true h)
      obtain ⟨l1, l2, hdec, hstrict, hmax⟩ := pyMax_foldl_spec key xs x
      cases l1 with
      | nil =>
        rw [List.nil_append] at hdec
        injection hdec with h1 h2
        refine ⟨[], e :: xs, ?_, by simp, ?_⟩
        · rw [List.nil_append, ← h1, h2]
        · intro y hy
          rcases List.mem_cons.mp hy with rfl | hy
          · exact hmax y (List.mem_cons_self _ _)
          · rcases List.mem_cons.mp hy with rfl | hy
            · rw [← h1]
              exact hex
            · exact hmax y (List.mem_cons_of_mem _ hy)
      | cons z l1' =>
        rw [List.cons_append] at hdec
        injection hdec with h1 h2
        refine ⟨x :: e :: l1', l2, ?_, ?_, ?_⟩
        · conv_lhs => rw [h2]
          rfl
        · intro y hy
          have hx : pyStrLt (key x)
              (key (xs.foldl (fun b e => if pyStrLt (key b) (key e) then e else b) x)) = true := by
            have := hstrict z (List.mem_cons_self _ _)
            rw [← h1] at this
            exact this
          rcases List.mem_cons.mp hy with rfl | hy
          · exact hx
          · rcases List.mem_cons.mp hy with rfl | hy
            · exact pyStrLt_of_le_of_lt hex hx
            · exact hstrict y (List.mem_cons_of_mem _ hy)
        · intro y hy
          rcases List.mem_cons.mp hy with rfl | hy
          · exact hmax y (List.mem_cons_self _ _)
          · rcases List.mem_cons.mp hy with rfl | hy
            · exact pyStrLe_trans hex (hmax x (List.mem_cons_self _ _))
            · exact hmax y (List.mem_cons_of_mem _ hy)

/- Claim theorems. -/

/-- C1: the claim says `version_at` on a bare date behaves identically to
`version_at` on the explicit end-of-day timestamp. On the code, the bare date
resolves fine, but the explicit `...T23:59:59.999999Z` form is rejected by
`_timestamp_pattern` (which has no fractional-seconds branch, contradicting
the method's own docstring), so the two calls are NOT equivalent: the code is
buggy at exactly the widened timestamp the claim names. -/
theorem C1_fractional_timestamp_rejected :
    Document.version_at exDoc1 "2020-05-01" =
      .ok ⟨"http://x/v1.xml", [("fig1", "")], "2020-05-01T10:00:00.000000Z"⟩ ∧
    Document.version_at exDoc1 "2020-05-01T23:59:59.999999Z" = .error .valueError ∧
    matchesTimestampPattern "2020-05-01T23:59:59.999999Z" = false := by
  exact ⟨by decide, by decide, by decide⟩

/-- C2 counterexample: the code resolves a timeline by
`max(takewhile(ts ≤ T), key=ts)`. Python's `max` keeps the FIRST maximal
entry, so on two entries sharing the qualifying timestamp the code returns
the earlier one while the claim demands the later one; and `takewhile` stops
at the first entry with timestamp > T, so a later qualifying entry after such
a barrier is never considered, contradicting "last entry whose timestamp
≤ T". -/
theorem C2_counterexample :
    resolveByTime (fun e : String × String => e.1) "1" [("1", "a"), ("1", "b")] =
      some ("1", "a") ∧
    claimResolveByTime (fun e : String × String => e.1) "1" [("1", "a"), ("1", "b")] =
      some ("1", "b") ∧
    resolveByTime (fun e : String × String => e.1) "2" [("1", "a"), ("3", "c"), ("2", "b")] =
      some ("1", "a") ∧
    claimResolveByTime (fun e : String × String => e.1) "2" [("1", "a"), ("3", "c"), ("2", "b")] =
      some ("2", "b") ∧
    (("1", "a") : String × String) ≠ ("1", "b") ∧
    (("1", "a") : String × String) ≠ ("2", "b") := by
  exact ⟨by decide, by decide, by decide, by decide, by decide, by decide⟩

/-- C2 (amended): resolution by time considers only the longest prefix of
entries whose timestamp is ≤ T (scanning stops at the first entry whose
timestamp exceeds T); among that prefix it returns the value of an entry with
maximal timestamp, and when several entries share the maximal timestamp the
entry occurring EARLIEST in the sequence is chosen; resolution fails exactly
when that prefix is empty. -/
theorem C2_time_resolution {α : Type} (key : α → String) (T : String) (l : List α) :
    (resolveByTime key T l = none ↔ l.takeWhile (fun x => pyStrLe (key x) T) = []) ∧
    (∀ e, resolveByTime key T l = some e →
      e ∈ l.takeWhile (fun x => pyStrLe (key x) T) ∧
      pyStrLe (key e) T = true ∧
      (∀ x ∈ l.takeWhile (fun x => pyStrLe (key x) T), pyStrLe (key x) (key e) = true) ∧
      ∃ l1 l2, l.takeWhile (fun x => pyStrLe (key x) T) = l1 ++ e :: l2 ∧
        ∀ x ∈ l1, pyStrLt (key x) (key e) = true) := by
  unfold resolveByTime
  cases hp : l.takeWhile (fun x => pyStrLe (key x) T) with
  | nil =>
    constructor
    · simp [pyMax]
    · intro e he
      rw [pyMax] at he
      cases he
  | cons x xs =>
    constructor
    · constructor
      · intro he
        rw [pyMax] at he
        cases he
      · intro he
        cases he
    · intro e he
      rw [pyMax] at he
      obtain rfl := (Option.some.inj he).symm
      obtain ⟨l1, l2, hdec, hstrict, hmax⟩ := pyMax_foldl_spec key xs x
      refine ⟨?_, ?_, ?_, l1, l2, hdec, hstrict⟩
      · rw [hdec]
        exact List.mem_append_right l1 (List.mem_cons_self _ _)
      · have hmem : (xs.foldl (fun b e => if pyStrLt (key b) (key e) then e else b) x) ∈
            l.takeWhile (fun x => pyStrLe (key x) T) := by
          rw [hp, hdec]
          exact List.mem_append_right l1 (List.mem_cons_self _ _)
        exact mem_takeWhile_pred _ l _ hmem
      · intro y hy
        exact hmax y hy

theorem C2_witness :
    ("1", "a") ∈ ([("1", "a"), ("1", "b")] : List (String × String)).takeWhile
      (fun x => pyStrLe x.1 "1") :=
  ((C2_time_resolution (fun e : String × String => e.1) "1" [("1", "a"), ("1", "b")]).2
    ("1", "a") (by decide)).1

/-- C3 counterexample: the claimed vocabulary contains the comma-free string
`LINGUISTIC LITERATURE AND ARTS`, but the code's `SUBJECT_AREAS` tuple spells
it `LINGUISTIC, LITERATURE AND ARTS`: the comma-free value is rejected with
ValueError, and the comma value is accepted. -/
theorem C3_counterexample :
    Journal.set_subject_areas exJournal ["LINGUISTIC LITERATURE AND ARTS"] "t1" =
      .error .valueError ∧
    Journal.set_subject_areas exJournal ["LINGUISTIC, LITERATURE AND ARTS"] "t1" =
      .ok ⟨"j", "t0", "t1", [],
        [("subject_areas", [("t1", ["LINGUISTIC, LITERATURE AND ARTS"])])], []⟩ := by
  exact ⟨by decide, by decide⟩

/-- C3 (amended): assigning `subject_areas` succeeds exactly when every
element of the supplied tuple belongs to the code's `SUBJECT_AREAS` (whose
eighth string is `LINGUISTIC, LITERATURE AND ARTS`, with a comma); any
element outside it makes the setter raise ValueError before any mutation. -/
theorem C3_subject_areas_vocabulary (b : Bundle (List String)) (value : List String)
    (now : String) :
    ((∀ item ∈ value, item ∈ SUBJECT_AREAS) →
      Journal.set_subject_areas b value now =
        .ok (BundleManifest.set_metadata b "subject_areas" value now)) ∧
    ((¬ ∀ item ∈ value, item ∈ SUBJECT_AREAS) →
      Journal.set_subject_areas b value now = .error .valueError) := by
  unfold Journal.set_subject_areas
  constructor
  · intro h
    rw [if_pos]
    rw [List.isEmpty_iff, List.filter_eq_nil_iff]
    intro a ha
    simp [h a ha]
  · intro h
    rw [if_neg]
    intro hcon
    rw [List.isEmpty_iff, List.filter_eq_nil_iff] at hcon
    apply h
    intro a ha
    have := hcon a ha
    simpa using this

theorem C3_witness :
    Journal.set_subject_areas exJournal ["ENGINEERING"] "t1" =
      .ok (BundleManifest.set_metadata exJournal "subject_areas" ["ENGINEERING"] "t1") ∧
    Journal.set_subject_areas exJournal ["BOTANY"] "t1" = .error .valueError :=
  ⟨(C3_subject_areas_vocabulary exJournal ["ENGINEERING"] "t1").1 (by decide),
   (C3_subject_areas_vocabulary exJournal ["BOTANY"] "t1").2 (by decide)⟩

/-- C4 counterexample: `remove_component` takes no clock at all and returns
the bundle with the component deleted but `updated` untouched, contradicting
"every mutating operation sets `updated` to the current timestamp". -/
theorem C4_counterexample :
    BundleManifest.remove_component exBundle "aop" =
      .ok ⟨"b", "t0", "t0", ["i1"], [], []⟩ := by
  decide

/-- C4 (amended): `set_metadata`, `add_item`, `insert_item`, `remove_item`
and `set_component` all set the resulting manifest's `updated` field to the
supplied current timestamp; `remove_component` leaves `updated` unchanged. -/
theorem C4_updated_refresh {μ : Type} (b : Bundle μ) (name : String) (value : μ)
    (item cname cvalue : String) (index : Int) (now : String) :
    (BundleManifest.set_metadata b name value now).updated = now ∧
    (∀ b', BundleManifest.add_item b item now = .ok b' → b'.updated = now) ∧
    (∀ b', BundleManifest.insert_item b index item now = .ok b' → b'.updated = now) ∧
    (∀ b', BundleManifest.remove_item b item now = .ok b' → b'.updated = now) ∧
    (BundleManifest.set_component b cname cvalue now).updated = now ∧
    (∀ b', BundleManifest.remove_component b cname = .ok b' → b'.updated = b.updated) := by
  refine ⟨rfl, ?_, ?_, ?_, rfl, ?_⟩
  · intro b' h
    unfold BundleManifest.add_item at h
    split at h
    · cases h
    · obtain rfl := (Except.ok.inj h).symm
      rfl
  · intro b' h
    unfold BundleManifest.insert_item at h
    split at h
    · cases h
    · obtain rfl := (Except.ok.inj h).symm
      rfl
  · intro b' h
    unfold BundleManifest.remove_item at h
    split at h
    · obtain rfl := (Except.ok.inj h).symm
      rfl
    · cases h
  · intro b' h
    unfold BundleManifest.remove_component at h
    cases hlk : lookupA cname b.components with
    | none => rw [hlk] at h; cases h
    | some v =>
      rw [hlk] at h
      obtain rfl := (Except.ok.inj h).symm
      rfl

theorem C4_witness :
    ((⟨"b", "t0", "t1", ["i1", "i2"], [], [("aop", "x")]⟩ : Bundle String)).updated = "t1" ∧
    ((⟨"b", "t0", "t0", ["i1"], [], []⟩ : Bundle String)).updated = exBundle.updated :=
  ⟨(C4_updated_refresh exBundle "volume" "1" "i2" "aop" "y" 0 "t1").2.1 _ (by decide),
   (C4_updated_refresh exBundle "volume" "1" "i2" "aop" "y" 0 "t1").2.2.2.2.2 _ (by decide)⟩

/-- C5: when the latest version's data URI equals the requested `data_url`,
`new_version` raises VersionAlreadySet and the document keeps its manifest
unchanged (same version count). -/
theorem C5_new_version_idempotency_guard (m : Manifest) (rv : RVersion)
    (discoveredKeys : List String) (now : Nat → String) (t : Nat)
    (h : Document.version m (-1) = .ok rv) :
    Document.new_version m rv.data discoveredKeys now t = .error .versionAlreadySet ∧
    Document.apply m (Document.new_version m rv.data discoveredKeys now t) = m := by
  have hmain : Document.new_version m rv.data discoveredKeys now t =
      .error .versionAlreadySet := by
    unfold Document.new_version
    simp [h]
  exact ⟨hmain, by rw [hmain]; rfl⟩

theorem C5_witness :
    Document.new_version exDoc1 "http://x/v1.xml" ["fig1"] exClock 0 =
      .error .versionAlreadySet ∧
    Document.apply exDoc1 (Document.new_version exDoc1 "http://x/v1.xml" ["fig1"] exClock 0) =
      exDoc1 :=
  C5_new_version_idempotency_guard exDoc1
    ⟨"http://x/v1.xml", [("fig1", "")], "2020-05-01T10:00:00.000000Z"⟩
    ["fig1"] exClock 0 (by decide)

/-- C9: on a document with zero versions, `new_asset_version` raises
IndexError (from `versions[-1]`), which is neither the documented ValueError
nor VersionAlreadySet, and the manifest is unchanged. -/
theorem C9_empty_document_index_error (m : Manifest) (assetId dataUrl : String)
    (now : Nat → String) (t : Nat) (h : m.versions = []) :
    Document.new_asset_version m assetId dataUrl now t = .error .indexError ∧
    (Err.indexError ≠ Err.valueError ∧ Err.indexError ≠ Err.versionAlreadySet) ∧
    Document.apply m (Document.new_asset_version m assetId dataUrl now t) = m := by
  have hmain : Document.new_asset_version m assetId dataUrl now t = .error .indexError := by
    unfold Document.new_asset_version Document.version DocumentManifest.add_asset_version
    rw [pyGet_neg_one, h]
    simp [lookupA]
  exact ⟨hmain, ⟨by decide, by decide⟩, by rw [hmain]; rfl⟩

theorem C9_witness :
    Document.new_asset_version (DocumentManifest.new "d") "a" "u" exClock 0 =
      .error .indexError :=
  (C9_empty_document_index_error (DocumentManifest.new "d") "a" "u" exClock 0 rfl).1

/-- C8: on a document with at least one version, `new_asset_version` for an
asset id absent from the latest version's asset set raises ValueError
(KeyError converted by the aggregate) and leaves the manifest unchanged. -/
theorem C8_unknown_asset_rejection (m : Manifest) (rv : RVersion) (assetId dataUrl : String)
    (now : Nat → String) (t : Nat)
    (h1 : Document.version m (-1) = .ok rv)
    (h2 : lookupA assetId rv.assets = none) :
    Document.new_asset_version m assetId dataUrl now t = .error .valueError ∧
    Document.apply m (Document.new_asset_version m assetId dataUrl now t) = m := by
  obtain ⟨V, hV, hrv⟩ := version_neg_one_ok h1
  have hVassets : lookupA assetId V.assets = none := by
    subst hrv
    rw [lookupA_resolveVersion] at h2
    exact Option.map_eq_none'.mp h2
  have hmain : Document.new_asset_version m assetId dataUrl now t = .error .valueError := by
    unfold Document.new_asset_version
    simp only [h1]
    rw [if_neg (by rw [h2]; simp)]
    unfold DocumentManifest.add_asset_version
    simp only [hV]
    unfold DocumentManifest.new_asset_version_raw
    rw [(appendEntry?_eq_none _).mpr hVassets]
    rfl
  exact ⟨hmain, by rw [hmain]; rfl⟩

theorem C8_witness :
    Document.new_asset_version exDoc2 "fig9" "http://x/f.png" exClock 0 =
      .error .valueError ∧
    Document.apply exDoc2 (Document.new_asset_version exDoc2 "fig9" "http://x/f.png" exClock 0) =
      exDoc2 :=
  C8_unknown_asset_rejection exDoc2
    ⟨"http://x/v1.xml", [("fig1", "http://x/fig1.png")], "t0"⟩
    "fig9" "http://x/f.png" exClock 0 (by decide) (by decide)

theorem pyInsert_toNat_le {α : Type} (l : List α) (i : Int) :
    (if i < 0 then max (i + l.length) 0 else min i (l.length : Int)).toNat ≤ l.length := by
  split <;> omega

theorem pyInsert_length {α : Type} (l : List α) (i : Int) (x : α) :
    (pyInsert l i x).length = l.length + 1 := by
  have hle := pyInsert_toNat_le l i
  unfold pyInsert
  rw [List.length_append, List.length_cons, List.length_take, List.length_drop]
  omega

theorem pyInsert_mem {α : Type} (l : List α) (i : Int) (x : α) : x ∈ pyInsert l i x := by
  unfold pyInsert
  simp

theorem pyInsert_high {α : Type} (l : List α) (i : Int) (x : α)
    (h : (l.length : Int) ≤ i) : pyInsert l i x = l ++ [x] := by
  unfold pyInsert
  rw [if_neg (by omega)]
  have hmin : min i (l.length : Int) = (l.length : Int) := by omega
  rw [hmin]
  simp

theorem pyInsert_low {α : Type} (l : List α) (i : Int) (x : α)
    (h : i + (l.length : Int) ≤ 0) : pyInsert l i x = x :: l := by
  unfold pyInsert
  by_cases h0 : i < 0
  · rw [if_pos h0]
    have hmax : max (i + (l.length : Int)) 0 = 0 := by omega
    rw [hmax]
    simp
  · rw [if_neg h0]
    have hmin : min i (l.length : Int) = 0 := by omega
    rw [hmin]
    simp

/-- C10: inserting an absent item never fails on an out-of-range index: the
index is clamped to the nearest end of the item list, the item is inserted
there, and the list grows by exactly one. -/
theorem C10_insert_item_clamps {μ : Type} (b : Bundle μ) (index : Int) (item : String)
    (now : String) (h : item ∉ b.items) :
    ∃ b', BundleManifest.insert_item b index item now = .ok b' ∧
      b'.items.length = b.items.length + 1 ∧
      item ∈ b'.items ∧
      ((b.items.length : Int) ≤ index → b'.items = b.items ++ [item]) ∧
      (index + (b.items.length : Int) ≤ 0 → b'.items = item :: b.items) := by
  refine ⟨{ b with items := pyInsert b.items index item, updated := now },
    by rw [BundleManifest.insert_item, if_neg h], ?_, ?_, ?_, ?_⟩
  · exact pyInsert_length b.items index item
  · exact pyInsert_mem b.items index item
  · intro hi
    exact pyInsert_high b.items index item hi
  · intro hi
    exact pyInsert_low b.items index item hi

theorem C10_witness :
    ∃ b', BundleManifest.insert_item exBundle 99 "i9" "t1" = .ok b' ∧
      b'.items.length = exBundle.items.length + 1 ∧
      "i9" ∈ b'.items ∧
      ((exBundle.items.length : Int) ≤ 99 → b'.items = exBundle.items ++ ["i9"]) ∧
      (99 + (exBundle.items.length : Int) ≤ 0 → b'.items = "i9" :: exBundle.items) :=
  C10_insert_item_clamps exBundle 99 "i9" "t1" (by decide)

theorem VersionExt_refl (v : Version) : VersionExt v v :=
  ⟨rfl, rfl, List.forall₂_same.mpr fun _ _ => ⟨rfl, [], (List.append_nil _).symm⟩⟩

theorem manifestExt_append (m : Manifest) (v : Version) :
    ManifestExt m { m with versions := m.versions ++ [v] } := by
  refine ⟨rfl, by simp, ?_⟩
  rw [show ({ m with versions := m.versions ++ [v] } : Manifest).versions =
    m.versions ++ [v] from rfl]
  rw [List.take_left]
  exact List.forall₂_same.mpr fun x _ => VersionExt_refl x

/-- C7: both manifest-producing operations are append-only: every version and
every timeline entry of the input manifest is present, in place and in order,
in the output; `add_version` appends one version, `add_asset_version` appends
one timeline entry to the last version. -/
theorem C7_append_only (m : Manifest) :
    (∀ dataUri assets now t m',
      DocumentManifest.add_version m dataUri assets now t = some m' → ManifestExt m m') ∧
    (∀ assetId assetUri now t m',
      DocumentManifest.add_asset_version m assetId assetUri now t = .ok m' →
        ManifestExt m m') := by
  constructor
  · intro dataUri assets now t m' h
    cases assets with
    | ids l =>
      simp only [DocumentManifest.add_version, Option.map_some'] at h
      obtain rfl := (Option.some.inj h).symm
      exact manifestExt_append m _
    | bindings bs =>
      simp only [DocumentManifest.add_version] at h
      cases hs : DocumentManifest.seedAssets
          (DocumentManifest.new_version_raw dataUri (.bindings bs) (now t)) bs now (t + 1) with
      | none => rw [hs, Option.map_none'] at h; cases h
      | some v =>
        rw [hs, Option.map_some'] at h
        obtain rfl := (Option.some.inj h).symm
        exact manifestExt_append m _
  · intro assetId assetUri now t m' h
    unfold DocumentManifest.add_asset_version at h
    cases hlast : m.versions.getLast? with
    | none => rw [hlast] at h; cases h
    | some V =>
      simp only [hlast] at h
      cases hraw : DocumentManifest.new_asset_version_raw V assetId assetUri (now t) with
      | none => rw [hraw] at h; cases h
      | some V' =>
        rw [hraw] at h
        obtain rfl := (Except.ok.inj h).symm
        have hne : m.versions ≠ [] := by
          intro hnil
          rw [hnil] at hlast
          cases hlast
        have hVe : m.versions.getLast hne = V := by
          have := List.getLast?_eq_getLast m.versions hne
          rw [hlast] at this
          exact (Option.some.inj this).symm
        have hext : VersionExt V V' := by
          unfold DocumentManifest.new_asset_version_raw at hraw
          cases ha : DocumentManifest.appendEntry? assetId (now t, assetUri) V.assets with
          | none => rw [ha] at hraw; cases hraw
          | some aa =>
            rw [ha, Option.map_some'] at hraw
            obtain rfl := (Option.some.inj hraw).symm
            exact ⟨rfl, rfl, appendEntry?_forall2 ha⟩
        have hdecomp : m.versions = m.versions.dropLast ++ [V] := by
          conv_lhs => rw [← List.dropLast_append_getLast hne]
          rw [hVe]
        have hlen : (m.versions.dropLast ++ [V']).length = m.versions.length := by
          rw [List.length_append, List.length_dropLast, List.length_cons, List.length_nil]
          have : 0 < m.versions.length := List.length_pos.mpr hne
          omega
        refine ⟨rfl, ?_, ?_⟩
        · rw [show ({ m with versions := m.versions.dropLast ++ [V'] } : Manifest).versions =
            m.versions.dropLast ++ [V'] from rfl]
          omega
        · rw [show ({ m with versions := m.versions.dropLast ++ [V'] } : Manifest).versions =
            m.versions.dropLast ++ [V'] from rfl]
          rw [← hlen, List.take_length]
          conv_lhs => rw [hdecomp]
          exact forall2_append (List.forall₂_same.mpr fun x _ => VersionExt_refl x)
            (List.Forall₂.cons hext List.Forall₂.nil)

/-- C6: if the latest version resolves asset `a` to `u1` and a new version is
created from a different data URL whose fetched content rediscovers `a` (no
new binding supplied anywhere on this path), then `new_version` succeeds and
`version()` on the new manifest still resolves `a` to `u1`. -/
theorem C6_asset_linking_carries_forward (m : Manifest) (rv : RVersion)
    (a u1 newUrl : String) (discoveredKeys : List String) (now : Nat → String) (t : Nat)
    (h1 : Document.version m (-1) = .ok rv)
    (h2 : lookupA a rv.assets = some u1)
    (h3 : rv.data ≠ newUrl)
    (h4 : a ∈ discoveredKeys) :
    ∃ m', Document.new_version m newUrl discoveredKeys now t = .ok m' ∧
      ∃ rv', Document.version m' (-1) = .ok rv' ∧ lookupA a rv'.assets = some u1 := by
  have hlink : Document.link_assets m discoveredKeys =
      (dedupKeys discoveredKeys).map (fun k => (k, (lookupA k rv.assets).getD "")) := by
    unfold Document.link_assets
    rw [h1]
  have hfst : ((dedupKeys discoveredKeys).map
      (fun k => (k, (lookupA k rv.assets).getD ""))).map Prod.fst = dedupKeys discoveredKeys := by
    rw [List.map_map]
    have hcomp : (Prod.fst ∘ fun k : String => (k, (lookupA k rv.assets).getD "")) =
        fun k => k := rfl
    rw [hcomp, List.map_id']
  have hv0assets : (DocumentManifest.new_version_raw newUrl
      (.bindings ((dedupKeys discoveredKeys).map
        (fun k => (k, (lookupA k rv.assets).getD "")))) (now t)).assets =
      (dedupKeys discoveredKeys).map (fun k => (k, ([] : List (String × String)))) := by
    show (dedupKeys (((dedupKeys discoveredKeys).map
        (fun k => (k, (lookupA k rv.assets).getD ""))).map Prod.fst)).map
        (fun k => (k, ([] : List (String × String)))) =
      (dedupKeys discoveredKeys).map (fun k => (k, ([] : List (String × String))))
    rw [hfst, dedupKeys_eq_self (nodup_dedupKeys discoveredKeys)]
  obtain ⟨v', hseed⟩ := seedAssets_some
    ((dedupKeys discoveredKeys).map (fun k => (k, (lookupA k rv.assets).getD "")))
    (DocumentManifest.new_version_raw newUrl
      (.bindings ((dedupKeys discoveredKeys).map
        (fun k => (k, (lookupA k rv.assets).getD "")))) (now t))
    now (t + 1)
    (by
      intro p hp
      obtain ⟨k, hk, rfl⟩ := List.mem_map.mp hp
      rw [hv0assets, lookupA_mapKeys, if_pos hk]
      rfl)
  have hadd : DocumentManifest.add_version m newUrl
      (.bindings ((dedupKeys discoveredKeys).map
        (fun k => (k, (lookupA k rv.assets).getD "")))) now t =
      some { m with versions := m.versions ++ [v'] } := by
    show Option.map (fun v => ({ m with versions := m.versions ++ [v] } : Manifest))
        (DocumentManifest.seedAssets
          (DocumentManifest.new_version_raw newUrl
            (.bindings ((dedupKeys discoveredKeys).map
              (fun k => (k, (lookupA k rv.assets).getD "")))) (now t))
          ((dedupKeys discoveredKeys).map (fun k => (k, (lookupA k rv.assets).getD "")))
          now (t + 1)) =
      some { m with versions := m.versions ++ [v'] }
    rw [hseed, Option.map_some']
  have hrun : Document.new_version m newUrl discoveredKeys now t =
      .ok { m with versions := m.versions ++ [v'] } := by
    unfold Document.new_version
    rw [h1]
    show (if rv.data = newUrl then Except.error Err.versionAlreadySet
      else match DocumentManifest.add_version m newUrl
          (AssetsArg.bindings (Document.link_assets m discoveredKeys)) now t with
        | some m'' => Except.ok m''
        | none => Except.error Err.keyError) =
      Except.ok { m with versions := m.versions ++ [v'] }
    rw [if_neg h3, hlink, hadd]
  have hmema : a ∈ dedupKeys discoveredKeys := (mem_dedupKeys a discoveredKeys).mpr h4
  obtain ⟨ts, hlkp⟩ := seedAssets_lookup
    ((dedupKeys discoveredKeys).map (fun k => (k, (lookupA k rv.assets).getD "")))
    (DocumentManifest.new_version_raw newUrl
      (.bindings ((dedupKeys discoveredKeys).map
        (fun k => (k, (lookupA k rv.assets).getD "")))) (now t))
    now (t + 1) a u1
    (by rw [hfst]; exact nodup_dedupKeys discoveredKeys)
    (by
      refine List.mem_map.mpr ⟨a, hmema, ?_⟩
      rw [h2]
      rfl)
    (by rw [hv0assets, lookupA_mapKeys, if_pos hmema])
    hseed
  refine ⟨{ m with versions := m.versions ++ [v'] }, hrun,
    Document.resolveVersion v', ?_, ?_⟩
  · unfold Document.version
    rw [pyGet_neg_one]
    rw [show ({ m with versions := m.versions ++ [v'] } : Manifest).versions =
      m.versions ++ [v'] from rfl]
    rw [List.getLast?_concat]
  · rw [lookupA_resolveVersion, hlkp]
    by_cases hu : u1 = ""
    · rw [if_pos hu, Option.map_some']
      simp [hu]
    · rw [if_neg hu, Option.map_some']
      simp

theorem C6_witness :
    ∃ m', Document.new_version exDoc2 "http://x/v2.xml" ["fig1"] exClock 0 = .ok m' ∧
      ∃ rv', Document.version m' (-1) = .ok rv' ∧
        lookupA "fig1" rv'.assets = some "http://x/fig1.png" :=
  C6_asset_linking_carries_forward exDoc2
    ⟨"http://x/v1.xml", [("fig1", "http://x/fig1.png")], "t0"⟩
    "fig1" "http://x/fig1.png" "http://x/v2.xml" ["fig1"] exClock 0
    (by decide) (by decide) (by decide) (by decide)

theorem C7_witness :
    ManifestExt exDoc2
      ⟨"doc", [⟨"http://x/v1.xml",
        [("fig1", [("t1", "http://x/fig1.png"), ("tz", "u2")])], "t0"⟩]⟩ ∧
    ManifestExt exDoc2
      ⟨"doc", [⟨"http://x/v1.xml", [("fig1", [("t1", "http://x/fig1.png")])], "t0"⟩,
        ⟨"http://x/v2.xml", [("a", [])], "tz"⟩]⟩ :=
  ⟨(C7_append_only exDoc2).2 "fig1" "u2" exClock 0 _ (by decide),
   (C7_append_only exDoc2).1 "http://x/v2.xml" (.ids ["a"]) exClock 0 _ (by decide)⟩

end DocStore
